import Mathlib

/-!
Verification development for the runkit service-management suite.

The definitions below are a shallow embedding of the Rust sources:

* `from_sv_status`, the status-text parser of
  `runkit-core/src/lib.rs` (`ServiceRuntimeState::from_sv_status`),
  including faithful models of the three anchored regular expressions
  `RUNNING_REGEX`, `DOWN_REGEX` and `FAIL_REGEX`;
* `validate_service_name` (`ServiceManager::validate_service_name`);
* `statusRun` (`ServiceManager::status`), `build_service_info` and
  `list_services` (`ServiceManager::{build_service_info, list_services}`),
  with the external `sv` invocation and the directory reads supplied by an
  explicit world model `SvWorld`;
* `call_sv`, `enable` and `disable` of `runkitd/src/main.rs`
  (`HelperContext::{call_sv, enable, disable}`), with the filesystem
  modelled as an explicit `Fs` value.

Modelling conventions: Rust strings are Lean `String`/`List Char`; the
regex classes `\s` and Rust `str::trim` are modelled with
`Char.isWhitespace`, and `\d` with the ASCII digits (the only digit shape
that the subsequent `parse::<uN>` calls accept); machine integers are `Nat`
/ `Int` with the exact range checks `parse::<u32>`, `parse::<u64>` and
`parse::<i32>` perform; fallible operations return `Except`; paths are
component lists and `PathBuf::join` is `joinPath`.
-/

/-- Whitespace, modelling the regex class `\s` and Rust `str::trim`. -/
def isWs (c : Char) : Bool := c.isWhitespace

/-- ASCII decimal digit, modelling the regex class `\d` as consumed by the
numeric captures (non-ASCII digits would be rejected by `parse` anyway). -/
def isDig (c : Char) : Bool := c.isDigit

/-- Strip a literal prefix, the model of a literal run inside a regex. -/
def stripLit : List Char → List Char → Option (List Char)
  | [], rest => some rest
  | _ :: _, [] => none
  | c :: cs, d :: ds => if c = d then stripLit cs ds else none

/-- Model of the regex fragment `\s+(?P<name>[^:]+):`, returning the text
after the colon.  Since `[^:]+` cannot cross a colon, the fragment matches
exactly when the segment before the first colon starts with a whitespace
character and has length at least two, and the continuation point is always
the position after that first colon. -/
def nameSplit (l : List Char) : Option (List Char) :=
  let seg := l.takeWhile (fun c => c ≠ ':')
  match l.drop seg.length with
  | ':' :: r =>
    match seg with
    | c :: _ :: _ => if isWs c then some r else none
    | _ => none
  | _ => none

/-- Model of the regex fragment `\s+`: at least one whitespace character.
Every use in the three status regexes is followed by a non-whitespace
pattern, so maximal munch is exact. -/
def ws1 : List Char → Option (List Char)
  | [] => none
  | c :: rest => if isWs c then some (rest.dropWhile isWs) else none

/-- Model of a capture `(\d+)`: the maximal nonempty digit run, returned
together with the remaining input.  Every use in the three status regexes
is followed by a non-digit pattern, so maximal munch is exact. -/
def digits1 (l : List Char) : Option (List Char × List Char) :=
  let ds := l.takeWhile isDig
  if ds.isEmpty then none else some (ds, l.drop ds.length)

/-- Require one literal character. -/
def expectChar (c : Char) : List Char → Option (List Char)
  | [] => none
  | d :: rest => if d = c then some rest else none

/-- Model of the capture `([-]?\d+)` of `FAIL_REGEX`. -/
def intField (l : List Char) : Option (List Char × List Char) :=
  match l with
  | '-' :: rest => (digits1 rest).map (fun p => ('-' :: p.1, p.2))
  | _ => digits1 l

def runLit : List Char := ['r', 'u', 'n', ':']

def downLit : List Char := ['d', 'o', 'w', 'n', ':']

def failLit : List Char := ['f', 'a', 'i', 'l', ':']

def pidLit : List Char := ['(', 'p', 'i', 'd']

def exitLit : List Char := ['e', 'x', 'i', 't']

/-- Model of `RUNNING_REGEX`:
`^run:\s+(?P<name>[^:]+):\s+\(pid\s+(?P<pid>\d+)\)\s+(?P<uptime>\d+)s`.
Returns the `pid` and `uptime` capture texts. -/
def runningCaps (l : List Char) : Option (List Char × List Char) :=
  (stripLit runLit l).bind fun r1 =>
  (nameSplit r1).bind fun r2 =>
  (ws1 r2).bind fun r3 =>
  (stripLit pidLit r3).bind fun r4 =>
  (ws1 r4).bind fun r5 =>
  (digits1 r5).bind fun p6 =>
  (expectChar ')' p6.2).bind fun r7 =>
  (ws1 r7).bind fun r8 =>
  (digits1 r8).bind fun p9 =>
  (expectChar 's' p9.2).map fun _ => (p6.1, p9.1)

/-- Model of `DOWN_REGEX`: `^down:\s+(?P<name>[^:]+):\s+(?P<since>\d+)s(,)?`.
Returns the `since` capture text (the trailing `(,)?` never affects
whether the regex matches). -/
def downCaps (l : List Char) : Option (List Char) :=
  (stripLit downLit l).bind fun r1 =>
  (nameSplit r1).bind fun r2 =>
  (ws1 r2).bind fun r3 =>
  (digits1 r3).bind fun p4 =>
  (expectChar 's' p4.2).map fun _ => p4.1

/-- The tail `s,\s+exit\s+(?P<code>[-]?\d+)` of `FAIL_REGEX`, starting right
after the `uptime` capture; `pid` and `up` are the captures already taken. -/
def failTail (pid up r9 : List Char) : Option (List Char × List Char × List Char) :=
  (expectChar 's' r9).bind fun r10 =>
  (expectChar ',' r10).bind fun r11 =>
  (ws1 r11).bind fun r12 =>
  (stripLit exitLit r12).bind fun r13 =>
  (ws1 r13).bind fun r14 =>
  (intField r14).map fun p15 => (pid, up, p15.1)

/-- Model of `FAIL_REGEX`:
`^fail:\s+(?P<name>[^:]+):\s+\(pid\s+(?P<pid>\d+)\)\s+(?P<uptime>\d+)s,\s+exit\s+(?P<code>[-]?\d+)`.
Returns the `pid`, `uptime` and `code` capture texts. -/
def failCaps (l : List Char) : Option (List Char × List Char × List Char) :=
  (stripLit failLit l).bind fun r1 =>
  (nameSplit r1).bind fun r2 =>
  (ws1 r2).bind fun r3 =>
  (stripLit pidLit r3).bind fun r4 =>
  (ws1 r4).bind fun r5 =>
  (digits1 r5).bind fun p6 =>
  (expectChar ')' p6.2).bind fun r7 =>
  (ws1 r7).bind fun r8 =>
  (digits1 r8).bind fun p9 =>
  failTail p6.1 p9.1 p9.2

/-- Numeric value of a digit string. -/
def digitsVal (ds : List Char) : Nat :=
  ds.foldl (fun a c => 10 * a + (c.toNat - 48)) 0

/-- Model of Rust `str::parse::<u32>` on a digit capture. -/
def parseU32 (ds : List Char) : Option Nat :=
  if digitsVal ds < 2 ^ 32 then some (digitsVal ds) else none

/-- Model of Rust `str::parse::<u64>` on a digit capture. -/
def parseU64 (ds : List Char) : Option Nat :=
  if digitsVal ds < 2 ^ 64 then some (digitsVal ds) else none

/-- Model of Rust `str::parse::<i32>` on a `[-]?\d+` capture. -/
def parseI32 (l : List Char) : Option Int :=
  match l with
  | '-' :: ds => if digitsVal ds ≤ 2 ^ 31 then some (-(digitsVal ds : Int)) else none
  | ds => if digitsVal ds < 2 ^ 31 then some ((digitsVal ds : Int)) else none

/-- Trim whitespace from both ends, modelling Rust `str::trim`. -/
def trimChars (l : List Char) : List Char :=
  ((l.dropWhile isWs).reverse.dropWhile isWs).reverse

/-- The first line of a string, modelling `str::lines().next().unwrap_or("")`.
A trailing carriage return is removed by the subsequent trim either way, so
taking the characters before the first newline is exact after trimming. -/
def firstLineChars (l : List Char) : List Char :=
  l.takeWhile (fun c => c ≠ '\n')

/-- The trimmed first line the parser operates on:
`status_output.lines().next().unwrap_or("").trim()`. -/
def lineOf (s : String) : List Char := trimChars (firstLineChars s.data)

/-- Model of `ServiceRuntimeState`; durations are their whole-second values,
which is exactly the information `Duration::from_secs` stores. -/
inductive ServiceRuntimeState where
  | Running (pid : Nat) (uptime : Nat)
  | Down (since : Nat) (normally_up : Bool)
  | Failed (pid : Nat) (uptime : Nat) (exit_code : Int)
  | Unknown (raw : String)
deriving DecidableEq, Repr

def normallyUpChars : List Char :=
  ['n', 'o', 'r', 'm', 'a', 'l', 'l', 'y', ' ', 'u', 'p']

/-- Substring occurrence, modelling Rust `str::contains`. -/
def containsSub (needle : List Char) : List Char → Bool
  | [] => needle.isEmpty
  | c :: rest => needle.isPrefixOf (c :: rest) || containsSub needle rest

/-- The `RUNNING_REGEX` arm of `from_sv_status`: `none` both when the regex
does not match and when it matches but `pid` or `uptime` fails to parse
(the Rust code then falls through past the early `return`). -/
def tryRunning (line : List Char) : Option ServiceRuntimeState :=
  match runningCaps line with
  | some (pd, ud) =>
    match parseU32 pd, parseU64 ud with
    | some pid, some up => some (ServiceRuntimeState.Running pid up)
    | _, _ => none
  | none => none

/-- The `DOWN_REGEX` arm of `from_sv_status`: whenever the regex matches it
returns a `Down` state unconditionally, with an unparsable `since` capture
replaced by `Duration::default()` (`unwrap_or_default`), and `normally_up`
set iff the whole line contains `"normally up"`. -/
def tryDown (line : List Char) : Option ServiceRuntimeState :=
  match downCaps line with
  | some sd =>
    some (ServiceRuntimeState.Down ((parseU64 sd).getD 0) (containsSub normallyUpChars line))
  | none => none

/-- The `FAIL_REGEX` arm of `from_sv_status`: `none` when the regex does not
match or `pid`/`uptime` fails to parse; an unparsable `code` capture
defaults to `0` (`unwrap_or_default`). -/
def tryFail (line : List Char) : Option ServiceRuntimeState :=
  match failCaps line with
  | some (pd, ud, cd) =>
    match parseU32 pd, parseU64 ud with
    | some pid, some up =>
      some (ServiceRuntimeState.Failed pid up ((parseI32 cd).getD 0))
    | _, _ => none
  | none => none

/-- The tail of the parser after the `RUNNING_REGEX` arm has fallen
through: the `DOWN_REGEX` arm, then the `FAIL_REGEX` arm, then the
`Unknown` fallback. -/
def downFailChain (line : List Char) : ServiceRuntimeState :=
  match tryDown line with
  | some st => st
  | none =>
    match tryFail line with
    | some st => st
    | none => ServiceRuntimeState.Unknown (String.mk line)

/-- Model of `ServiceRuntimeState::from_sv_status`. -/
def from_sv_status (s : String) : ServiceRuntimeState :=
  match tryRunning (lineOf s) with
  | some st => st
  | none => downFailChain (lineOf s)

/-- Model of `ServiceManager::validate_service_name`: non-empty and every
character ASCII alphanumeric or one of `-`, `_`, `.` (`Char.isAlphanum` is
exactly the ASCII ranges that Rust `char::is_ascii_alphanumeric` tests). -/
def validate_service_name (service : String) : Bool :=
  !service.isEmpty && service.data.all fun c =>
    c.isAlphanum || c == '-' || c == '_' || c == '.'

/-- Model of `runkit_core::ServiceError` (the `source`/`message` payloads
that are not inspected by any modelled operation are kept as plain data;
`IoErr` is the `Io` variant). -/
inductive ServiceError where
  | IoErr (path : List String)
  | SvCommand (service message : String)
  | InvalidServiceName (name : String)
  | Other (msg : String)
deriving DecidableEq, Repr

/-- Model of `runkitd::HelperError` (`IoErr` is the `Io` variant). -/
inductive HelperError where
  | InvalidService (name : String)
  | DefinitionMissing (service : String) (path : List String)
  | AlreadyEnabled (name : String)
  | NotEnabled (name : String)
  | SvFailure (command service message : String)
  | IoErr (path : List String)
  | Other (msg : String)
deriving DecidableEq, Repr

/-- Model of `runkitd::CommandOutcome`.  The JSON `data` payload is not
constructed by any modelled operation and is omitted. -/
structure CommandOutcome where
  message : Option String
deriving DecidableEq, Repr

/-- Captured result of one external `sv` invocation:
`std::process::Output` with the exit code (`none` models death by signal)
and the decoded stdout/stderr texts. -/
structure SvOutput where
  exitCode : Option Int
  stdout : String
  stderr : String

/-- Model of `ExitStatus::success()`: exit code zero. -/
def svSuccess (out : SvOutput) : Bool := out.exitCode == some 0

/-- Rust `str::trim` on a `String`. -/
def trimStr (s : String) : String := String.mk (trimChars s.data)

/-- Display text for an exit status, modelling
`code().map(|code| format!("exit status {code}")).unwrap_or_else(|| status.to_string())`. -/
def exitStatusText (ec : Option Int) : String :=
  match ec with
  | some c => s!"exit status {c}"
  | none => "terminated by signal"

/-- Model of `HelperContext::call_sv`: validate the name, run
`<sv> <subcommand> <service>` (the captured output is the `out` argument),
fail exactly when the exit status is unsuccessful — with the trimmed stderr
as the message, or a synthesized exit-status text when that is empty — and
otherwise succeed with the trimmed stdout (or a synthesized note). -/
def call_sv (subcommand service : String) (out : SvOutput) :
    Except HelperError CommandOutcome :=
  if validate_service_name service = false then
    Except.error (HelperError.InvalidService service)
  else if svSuccess out = false then
    Except.error (HelperError.SvFailure subcommand service
      (if trimStr out.stderr = "" then exitStatusText out.exitCode
       else trimStr out.stderr))
  else
    Except.ok ⟨some (if trimStr out.stdout = "" then
      s!"{subcommand} command executed for {service}" else trimStr out.stdout)⟩

/-- The message synthesized by `ServiceManager::status` when `sv status`
produces no output. -/
def noOutputMsg (out : SvOutput) : String :=
  let d := exitStatusText out.exitCode
  s!"sv status returned no output ({d})"

/-- Model of `ServiceManager::status`: validate the name first (the command
is not even spawned for an invalid name, so the result then does not depend
on `out`); fail when the trimmed stderr is non-empty, regardless of the
exit status; fail describing the exit status when the trimmed stdout is
empty; otherwise hand stdout to the status parser. -/
def statusRun (service : String) (out : SvOutput) :
    Except ServiceError ServiceRuntimeState :=
  if validate_service_name service = false then
    Except.error (ServiceError.InvalidServiceName service)
  else if trimStr out.stderr ≠ "" then
    Except.error (ServiceError.SvCommand service (trimStr out.stderr))
  else if trimStr out.stdout = "" then
    Except.error (ServiceError.SvCommand service (noOutputMsg out))
  else
    Except.ok (from_sv_status out.stdout)

/-- Paths as component lists; `joinPath` models `Path::join` with a simple
file name.  No normalization happens at join time, exactly as in Rust. -/
def joinPath (root : List String) (name : String) : List String := root ++ [name]

/-- One resolution step of a path component against an accumulated absolute
path: `..` pops a component, `.` is a no-op, anything else descends. -/
def resolveComp (acc : List String) (c : String) : List String :=
  if c = ".." then acc.dropLast else if c = "." then acc else acc ++ [c]

/-- Filesystem resolution of a component path (the semantics the kernel
applies to `enabled_root/..` and friends). -/
def resolvePath (p : List String) : List String := p.foldl resolveComp []

/-- Filesystem model for the helper: the set of existing paths and the set
of symlinks, each symlink `(link, target)` also being an existing path. -/
structure Fs where
  present : List (List String)
  links : List (List String × List String)
deriving DecidableEq, Repr

/-- Model of `Path::exists`. -/
def pathExists (fs : Fs) (p : List String) : Bool := fs.present.contains p

/-- The two configured roots of the helper's `ServiceManager`. -/
structure HelperPaths where
  definitionsDir : List String
  enabledDir : List String
deriving DecidableEq, Repr

/-- Model of `HelperContext::enable`, returning the filesystem after the
call together with the outcome.  `symlinkOk` models whether the
`std::os::unix::fs::symlink` call itself would succeed. -/
def enable (hp : HelperPaths) (fs : Fs) (symlinkOk : Bool) (service : String) :
    Fs × Except HelperError CommandOutcome :=
  if validate_service_name service = false then
    (fs, Except.error (HelperError.InvalidService service))
  else
    let src := joinPath hp.definitionsDir service
    if pathExists fs src = false then
      (fs, Except.error (HelperError.DefinitionMissing service src))
    else
      let dest := joinPath hp.enabledDir service
      if pathExists fs dest then
        (fs, Except.error (HelperError.AlreadyEnabled service))
      else if symlinkOk = false then
        (fs, Except.error (HelperError.IoErr dest))
      else
        (⟨dest :: fs.present, (dest, src) :: fs.links⟩,
         Except.ok ⟨some s!"Enabled service {service}"⟩)

/-- Model of `HelperContext::disable`; `removeOk` models whether the
`std::fs::remove_file` call itself would succeed. -/
def disable (hp : HelperPaths) (fs : Fs) (removeOk : Bool) (service : String) :
    Fs × Except HelperError CommandOutcome :=
  if validate_service_name service = false then
    (fs, Except.error (HelperError.InvalidService service))
  else
    let dest := joinPath hp.enabledDir service
    if pathExists fs dest = false then
      (fs, Except.error (HelperError.NotEnabled service))
    else if removeOk = false then
      (fs, Except.error (HelperError.IoErr dest))
    else
      (⟨fs.present.filter (fun p => p ≠ dest),
        fs.links.filter (fun lk => lk.1 ≠ dest)⟩,
       Except.ok ⟨some s!"Disabled service {service}"⟩)

/-- Model of `DesiredState`. -/
inductive DesiredState where
  | AutoStart
  | Manual
deriving DecidableEq, Repr

/-- Model of `ServiceInfo`. -/
structure ServiceInfo where
  name : String
  definition_path : List String
  enabled : Bool
  desired_state : DesiredState
  runtime_state : ServiceRuntimeState
  description : Option String
deriving DecidableEq, Repr

/-- One entry of `read_dir` over the definitions root. -/
structure DirEntry where
  name : String
  isDir : Bool
deriving DecidableEq, Repr

/-- World model for `ServiceManager` enumeration: the configured roots, the
outcome of reading the definitions root, the behaviour of the external
`sv status <name>` invocation, the description lookup (which never fails in
the source: read errors are swallowed), and which names have an entry under
the enabled root. -/
structure SvWorld where
  definitionsDir : List String
  enabledDir : List String
  readDir : Except ServiceError (List DirEntry)
  svOut : String → SvOutput
  descOf : String → Option String
  enabledNames : List String

/-- Leading-dot test, modelling `str::starts_with('.')`. -/
def startsWithDot (s : String) : Bool :=
  match s.data with
  | '.' :: _ => true
  | _ => false

/-- Model of `ServiceManager::build_service_info`: skip hidden names, read
the enabled flag and the desired state from one existence test of
`enabled_root/name`, query the status (which can fail the whole call), and
attach the description. -/
def build_service_info (w : SvWorld) (name : String) (defPath : List String) :
    Except ServiceError (Option ServiceInfo) :=
  if startsWithDot name then Except.ok none
  else
    let enabled := w.enabledNames.contains name
    let desired := if enabled then DesiredState.AutoStart else DesiredState.Manual
    match statusRun name (w.svOut name) with
    | Except.error e => Except.error e
    | Except.ok rs =>
      Except.ok (some ⟨name, defPath, enabled, desired, rs, w.descOf name⟩)

/-- The entry loop of `ServiceManager::list_services`: walk the entries in
directory order, skip non-directories, abort on the first
`build_service_info` error, and collect the produced infos. -/
def listGo (w : SvWorld) : List DirEntry → Except ServiceError (List ServiceInfo)
  | [] => Except.ok []
  | e :: rest =>
    if e.isDir = false then listGo w rest
    else
      match build_service_info w e.name (joinPath w.definitionsDir e.name) with
      | Except.error err => Except.error err
      | Except.ok none => listGo w rest
      | Except.ok (some info) =>
        match listGo w rest with
        | Except.error err => Except.error err
        | Except.ok l => Except.ok (info :: l)

/-- The sorting relation of `services.sort_by(|a, b| a.name.cmp(&b.name))`:
ascending name order.  Rust compares the UTF-8 bytes; byte-lexicographic
order on UTF-8 text coincides with code-point-lexicographic order, modelled
here on the character lists. -/
def nameLe (a b : ServiceInfo) : Prop := ¬ b.name.data < a.name.data

instance : DecidableRel nameLe := fun _ _ => instDecidableNot

instance : IsTotal ServiceInfo nameLe :=
  ⟨fun a b => by
    unfold nameLe
    rcases le_total a.name.data b.name.data with h | h
    · exact Or.inl (not_lt.mpr h)
    · exact Or.inr (not_lt.mpr h)⟩

instance : IsTrans ServiceInfo nameLe :=
  ⟨fun a b c hab hbc => by
    unfold nameLe at hab hbc ⊢
    rw [not_lt] at hab hbc ⊢
    exact le_trans hab hbc⟩

/-- Model of `ServiceManager::list_services`: read the definitions root,
run the entry loop, and sort the result by name (a stable sort, as
`sort_by` is). -/
def list_services (w : SvWorld) : Except ServiceError (List ServiceInfo) :=
  match w.readDir with
  | Except.error e => Except.error e
  | Except.ok entries =>
    match listGo w entries with
    | Except.error e => Except.error e
    | Except.ok l => Except.ok (List.insertionSort nameLe l)

/-- A concrete enumeration world: definitions root with entries `b`,
`.hidden`, `a` (in that read order) and a non-directory entry, enabled
root containing only `b`, and a healthy `sv status` for every name. -/
def exListWorld : SvWorld :=
  ⟨["etc", "sv"], ["var", "service"],
   Except.ok [⟨"b", true⟩, ⟨".hidden", true⟩, ⟨"a", true⟩, ⟨"notdir", false⟩],
   fun _ => ⟨some 0, "run: x: (pid 7) 3s\n", ""⟩,
   fun _ => none,
   ["b"]⟩

/-- The record `list()` produces for `a` in `exListWorld`. -/
def exInfoA : ServiceInfo :=
  ⟨"a", ["etc", "sv", "a"], false, DesiredState.Manual,
   ServiceRuntimeState.Running 7 3, none⟩

/-- The record `list()` produces for `b` in `exListWorld`. -/
def exInfoB : ServiceInfo :=
  ⟨"b", ["etc", "sv", "b"], true, DesiredState.AutoStart,
   ServiceRuntimeState.Running 7 3, none⟩

/-- An enumeration world whose definitions root cannot be read. -/
def brokenReadWorld : SvWorld :=
  ⟨["etc", "sv"], ["var", "service"],
   Except.error (ServiceError.IoErr ["etc", "sv"]),
   fun _ => ⟨some 0, "", ""⟩, fun _ => none, []⟩

/-- If stripping a nonempty literal succeeds, the input starts with the
literal's first character. -/
theorem stripLit_cons_head {c : Char} {cs l r : List Char}
    (h : stripLit (c :: cs) l = some r) : ∃ t, l = c :: t := by
  cases l with
  | nil => simp [stripLit] at h
  | cons d ds =>
    by_cases hc : c = d
    · exact ⟨ds, by rw [hc]⟩
    · simp [stripLit, hc] at h

/-- A line matched by the running regex starts with `r`. -/
theorem runningCaps_head {l : List Char} {p : List Char × List Char}
    (h : runningCaps l = some p) : ∃ t, l = 'r' :: t := by
  rcases hs : stripLit runLit l with _ | r1
  · rw [runningCaps, hs] at h; simp at h
  · exact stripLit_cons_head hs

/-- A line matched by the down regex starts with `d`. -/
theorem downCaps_head {l : List Char} {sd : List Char}
    (h : downCaps l = some sd) : ∃ t, l = 'd' :: t := by
  rcases hs : stripLit downLit l with _ | r1
  · rw [downCaps, hs] at h; simp at h
  · exact stripLit_cons_head hs

/-- A line matched by the fail regex starts with `f`. -/
theorem failCaps_head {l : List Char} {p : List Char × List Char × List Char}
    (h : failCaps l = some p) : ∃ t, l = 'f' :: t := by
  rcases hs : stripLit failLit l with _ | r1
  · rw [failCaps, hs] at h; simp at h
  · exact stripLit_cons_head hs

/-- The three regexes expect distinct keywords, so a down line never
matches the running regex. -/
theorem runningCaps_none_of_down {l : List Char} {sd : List Char}
    (h : downCaps l = some sd) : runningCaps l = none := by
  obtain ⟨t, rfl⟩ := downCaps_head h
  rcases hr : runningCaps ('d' :: t) with _ | p
  · rfl
  · obtain ⟨t', ht⟩ := runningCaps_head hr
    simp at ht

/-- A fail line never matches the running regex. -/
theorem runningCaps_none_of_fail {l : List Char} {p : List Char × List Char × List Char}
    (h : failCaps l = some p) : runningCaps l = none := by
  obtain ⟨t, rfl⟩ := failCaps_head h
  rcases hr : runningCaps ('f' :: t) with _ | q
  · rfl
  · obtain ⟨t', ht⟩ := runningCaps_head hr
    simp at ht

/-- A fail line never matches the down regex. -/
theorem downCaps_none_of_fail {l : List Char} {p : List Char × List Char × List Char}
    (h : failCaps l = some p) : downCaps l = none := by
  obtain ⟨t, rfl⟩ := failCaps_head h
  rcases hd : downCaps ('f' :: t) with _ | sd
  · rfl
  · obtain ⟨t', ht⟩ := downCaps_head hd
    simp at ht

/-- Claim C1: the status parser is total — it is a Lean function, so it
returns a `ServiceRuntimeState` on every input — and whenever the trimmed
first line of the input matches none of the three grammars (the empty line
included), the result is `Unknown` carrying exactly that trimmed first
line. -/
theorem from_sv_status_unmatched (s : String)
    (h1 : runningCaps (lineOf s) = none)
    (h2 : downCaps (lineOf s) = none)
    (h3 : failCaps (lineOf s) = none) :
    from_sv_status s = ServiceRuntimeState.Unknown (String.mk (lineOf s)) := by
  simp [from_sv_status, tryRunning, downFailChain, tryDown, tryFail, h1, h2, h3]

/-- Witness for C1 at the spec's own example input. -/
theorem from_sv_status_unmatched_witness :
    from_sv_status "garbage\n" = ServiceRuntimeState.Unknown "garbage" := by
  rw [from_sv_status_unmatched "garbage\n" (by decide) (by decide) (by decide)]
  decide

/-- When the running regex matches but a capture overflows its integer
type, the running arm produces nothing (the Rust early `return` is
skipped). -/
theorem tryRunning_none_of_overflow {l : List Char} {pd ud : List Char}
    (hc : runningCaps l = some (pd, ud))
    (hp : parseU32 pd = none ∨ parseU64 ud = none) :
    tryRunning l = none := by
  unfold tryRunning
  rw [hc]
  rcases h32 : parseU32 pd with _ | v32 <;> rcases h64 : parseU64 ud with _ | v64 <;>
    simp_all

/-- Claim C2 counterexample: on a down line whose seconds field overflows
`u64`, the parser does not fall through — it emits `Down` with the seconds
defaulted to zero instead of reaching the `Unknown` fallback. -/
theorem down_overflow_defaults :
    from_sv_status "down: x: 18446744073709551616s" =
      ServiceRuntimeState.Down 0 false ∧
    from_sv_status "down: x: 18446744073709551616s" ≠
      ServiceRuntimeState.Unknown "down: x: 18446744073709551616s" := by
  decide

/-- Claim C2 (amended): an unparsable `pid` or `uptime` makes the running
arm fall through to the rest of the chain and makes the fail arm fall
through to `Unknown`; the down arm, however, still returns a `Down` value,
with an unparsable seconds field defaulted to `0` (like the exempt
exit-code field). -/
theorem numeric_parse_fallthrough :
    (∀ s pd ud, runningCaps (lineOf s) = some (pd, ud) →
        (parseU32 pd = none ∨ parseU64 ud = none) →
        from_sv_status s = downFailChain (lineOf s)) ∧
    (∀ s pd ud cd, failCaps (lineOf s) = some (pd, ud, cd) →
        (parseU32 pd = none ∨ parseU64 ud = none) →
        from_sv_status s = ServiceRuntimeState.Unknown (String.mk (lineOf s))) ∧
    (∀ s sd, downCaps (lineOf s) = some sd → parseU64 sd = none →
        from_sv_status s =
          ServiceRuntimeState.Down 0 (containsSub normallyUpChars (lineOf s))) := by
  refine ⟨?_, ?_, ?_⟩
  · intro s pd ud hc hp
    rw [from_sv_status, tryRunning_none_of_overflow hc hp]
  · intro s pd ud cd hc hp
    have hr : runningCaps (lineOf s) = none := runningCaps_none_of_fail hc
    have hd : downCaps (lineOf s) = none := downCaps_none_of_fail hc
    have hf : tryFail (lineOf s) = none := by
      unfold tryFail
      rw [hc]
      rcases h32 : parseU32 pd with _ | v32 <;> rcases h64 : parseU64 ud with _ | v64 <;>
        simp_all
    simp [from_sv_status, tryRunning, hr, downFailChain, tryDown, hd, hf]
  · intro s sd hc hp
    have hr : runningCaps (lineOf s) = none := runningCaps_none_of_down hc
    simp [from_sv_status, tryRunning, hr, downFailChain, tryDown, hc, hp]

/-- Witness for the amended C2 at a running line whose pid overflows
`u32`: the parser moves on past the running arm. -/
theorem numeric_parse_fallthrough_witness :
    from_sv_status "run: x: (pid 4294967296) 5s" =
      downFailChain (lineOf "run: x: (pid 4294967296) 5s") :=
  numeric_parse_fallthrough.1 "run: x: (pid 4294967296) 5s"
    (['4', '2', '9', '4', '9', '6', '7', '2', '9', '6'])
    (['5']) (by decide) (Or.inl (by decide))

/-- Claim C4 counterexample: in this down line the substring
`normally up` occurs only before the seconds field (it is the service
name), and nothing at all follows the seconds field, yet the parser sets
`normally_up`. -/
theorem normally_up_before_seconds :
    from_sv_status "down: normally up: 5s" = ServiceRuntimeState.Down 5 true := by
  decide

/-- Claim C4 (amended): for every line matched by the down grammar,
`normally_up` is true iff the literal substring `normally up` occurs
anywhere in the trimmed line — the position relative to the seconds field
is irrelevant. -/
theorem normally_up_whole_line (s : String) (sd : List Char)
    (h : downCaps (lineOf s) = some sd) :
    from_sv_status s =
      ServiceRuntimeState.Down ((parseU64 sd).getD 0)
        (containsSub normallyUpChars (lineOf s)) := by
  have hr : runningCaps (lineOf s) = none := runningCaps_none_of_down h
  simp [from_sv_status, tryRunning, hr, downFailChain, tryDown, h]

/-- Witness for the amended C4 at the spec's own down example. -/
theorem normally_up_whole_line_witness :
    from_sv_status "down: cron: 5s, normally up\n" =
      ServiceRuntimeState.Down 5 true := by
  rw [normally_up_whole_line "down: cron: 5s, normally up\n" (['5']) (by decide)]
  decide

/-- Claim C5: `validate_service_name` accepts exactly the non-empty
strings whose characters are ASCII letters (`Char.isUpper`/`Char.isLower`
are the ASCII ranges), ASCII digits, `-`, `_` or `.`; in particular the
spec's five example inputs behave as stated. -/
theorem validate_characterization :
    (∀ s : String, validate_service_name s = true ↔
      (s ≠ "" ∧ ∀ c ∈ s.data,
        c.isUpper = true ∨ c.isLower = true ∨ c.isDigit = true ∨
        c = '-' ∨ c = '_' ∨ c = '.')) ∧
    validate_service_name "" = false ∧
    validate_service_name "../bad" = false ∧
    validate_service_name "a/b" = false ∧
    validate_service_name "valid_name-01" = true ∧
    validate_service_name "x.y_z" = true := by
  refine ⟨fun s => ?_, by decide, by decide, by decide, by decide, by decide⟩
  unfold validate_service_name
  have hempty : s.isEmpty = false ↔ ¬ s = "" := by
    rw [← String.isEmpty_iff]
    cases s.isEmpty <;> simp
  simp [List.all_eq_true, Char.isAlphanum, Char.isAlpha,
    Bool.or_eq_true, beq_iff_eq, hempty]
  intro
  constructor
  · intro h c hc
    have := h c hc
    tauto
  · intro h c hc
    have := h c hc
    tauto

/-- Joining `..` and resolving pops one component off the resolved root. -/
theorem resolvePath_dotdot (root : List String) :
    resolvePath (joinPath root "..") = (resolvePath root).dropLast := by
  unfold joinPath resolvePath
  rw [List.foldl_append]
  simp [resolveComp]

/-- Claim C6: the validation whitelist accepts `.` and `..`; `enable`
called with `..` therefore gets past name validation (it can never report
`InvalidService`), and the path it then operates on, `enabled_root/..`,
resolves to the parent of the enabled root — outside the configured root
whenever that root is a proper directory. -/
theorem dotdot_passes_validation :
    validate_service_name "." = true ∧
    validate_service_name ".." = true ∧
    (∀ hp fs ok, (enable hp fs ok "..").2 ≠
        Except.error (HelperError.InvalidService "..")) ∧
    (∀ root : List String, resolvePath (joinPath root "..") =
        (resolvePath root).dropLast) ∧
    (∀ root : List String, resolvePath root ≠ [] →
        ∀ rest, resolvePath (joinPath root "..") ≠ resolvePath root ++ rest) := by
  refine ⟨by decide, by decide, ?_, resolvePath_dotdot, ?_⟩
  · intro hp fs ok
    have hv : validate_service_name ".." = true := by decide
    by_cases hsrc : pathExists fs (joinPath hp.definitionsDir "..") = false
    · simp [enable, hv, hsrc]
    · by_cases hdest : pathExists fs (joinPath hp.enabledDir "..") = true
      · simp [enable, hv, hsrc, hdest]
      · by_cases hok : ok = false
        · simp [enable, hv, hsrc, hdest, hok]
        · simp [enable, hv, hsrc, hdest, hok]
  · intro root h rest heq
    rw [resolvePath_dotdot] at heq
    have hlen := congrArg List.length heq
    have hpos : 0 < (resolvePath root).length := List.length_pos.mpr h
    simp [List.length_dropLast, List.length_append] at hlen
    omega

/-- Witness for C6: with the default enabled root `/var/service`, the
path `enabled_root/..` escapes the root (here: it does not even equal the
root itself). -/
theorem dotdot_passes_validation_witness :
    resolvePath (joinPath (["var", "service"]) "..") ≠
      resolvePath (["var", "service"]) ++ [] :=
  dotdot_passes_validation.2.2.2.2 (["var", "service"]) (by decide) []

/-- Claim C7: `enable` checks, in order, name validity, existence of the
service definition, and absence of an enabled-root entry, failing with
`InvalidService` / `DefinitionMissing` / `AlreadyEnabled` respectively;
on success it creates exactly the one symlink
`enabled_root/name -> definitions_root/name`.  `disable` checks name
validity and presence of the enabled-root entry (`NotEnabled` otherwise)
and removes exactly that entry.  Every failure path of either operation
leaves the filesystem untouched. -/
theorem enable_disable_protocol :
    (∀ hp fs ok s, validate_service_name s = false →
        enable hp fs ok s = (fs, Except.error (HelperError.InvalidService s))) ∧
    (∀ hp fs ok s, validate_service_name s = true →
        pathExists fs (joinPath hp.definitionsDir s) = false →
        enable hp fs ok s = (fs, Except.error
          (HelperError.DefinitionMissing s (joinPath hp.definitionsDir s)))) ∧
    (∀ hp fs ok s, validate_service_name s = true →
        pathExists fs (joinPath hp.definitionsDir s) = true →
        pathExists fs (joinPath hp.enabledDir s) = true →
        enable hp fs ok s = (fs, Except.error (HelperError.AlreadyEnabled s))) ∧
    (∀ hp fs s, validate_service_name s = true →
        pathExists fs (joinPath hp.definitionsDir s) = true →
        pathExists fs (joinPath hp.enabledDir s) = false →
        enable hp fs true s =
          (⟨joinPath hp.enabledDir s :: fs.present,
            (joinPath hp.enabledDir s, joinPath hp.definitionsDir s) :: fs.links⟩,
           Except.ok ⟨some s!"Enabled service {s}"⟩)) ∧
    (∀ hp fs ok s e, (enable hp fs ok s).2 = Except.error e →
        (enable hp fs ok s).1 = fs) ∧
    (∀ hp fs ok s, validate_service_name s = false →
        disable hp fs ok s = (fs, Except.error (HelperError.InvalidService s))) ∧
    (∀ hp fs ok s, validate_service_name s = true →
        pathExists fs (joinPath hp.enabledDir s) = false →
        disable hp fs ok s = (fs, Except.error (HelperError.NotEnabled s))) ∧
    (∀ hp fs s, validate_service_name s = true →
        pathExists fs (joinPath hp.enabledDir s) = true →
        disable hp fs true s =
          (⟨fs.present.filter (fun p => p ≠ joinPath hp.enabledDir s),
            fs.links.filter (fun lk => lk.1 ≠ joinPath hp.enabledDir s)⟩,
           Except.ok ⟨some s!"Disabled service {s}"⟩)) ∧
    (∀ hp fs ok s e, (disable hp fs ok s).2 = Except.error e →
        (disable hp fs ok s).1 = fs) := by
  refine ⟨?_, ?_, ?_, ?_, ?_, ?_, ?_, ?_, ?_⟩
  · intro hp fs ok s hv
    simp [enable, hv]
  · intro hp fs ok s hv hsrc
    simp [enable, hv, hsrc]
  · intro hp fs ok s hv hsrc hdest
    simp [enable, hv, hsrc, hdest]
  · intro hp fs s hv hsrc hdest
    simp [enable, hv, hsrc, hdest]
  · intro hp fs ok s e herr
    by_cases hv : validate_service_name s = false
    · simp [enable, hv]
    · by_cases hsrc : pathExists fs (joinPath hp.definitionsDir s) = false
      · simp [enable, hv, hsrc]
      · by_cases hdest : pathExists fs (joinPath hp.enabledDir s) = true
        · simp [enable, hv, hsrc, hdest]
        · by_cases hok : ok = false
          · simp [enable, hv, hsrc, hdest, hok]
          · exfalso
            simp [enable, hv, hsrc, hdest, hok] at herr
  · intro hp fs ok s hv
    simp [disable, hv]
  · intro hp fs ok s hv hdest
    simp [disable, hv, hdest]
  · intro hp fs s hv hdest
    simp [disable, hv, hdest]
  · intro hp fs ok s e herr
    by_cases hv : validate_service_name s = false
    · simp [disable, hv]
    · by_cases hdest : pathExists fs (joinPath hp.enabledDir s) = false
      · simp [disable, hv, hdest]
      · by_cases hok : ok = false
        · simp [disable, hv, hdest, hok]
        · exfalso
          simp [disable, hv, hdest, hok] at herr

/-- Witness for C7: enabling `nginx` on a filesystem where only the
definition exists creates exactly the symlink entry. -/
theorem enable_disable_protocol_witness :
    enable ⟨["etc", "sv"], ["var", "service"]⟩ ⟨[["etc", "sv", "nginx"]], []⟩ true "nginx" =
      (⟨[["var", "service", "nginx"], ["etc", "sv", "nginx"]],
        [(["var", "service", "nginx"], ["etc", "sv", "nginx"])]⟩,
       Except.ok ⟨some "Enabled service nginx"⟩) := by
  have h := enable_disable_protocol.2.2.2.1 ⟨["etc", "sv"], ["var", "service"]⟩
    ⟨[["etc", "sv", "nginx"]], []⟩ "nginx" (by decide) (by decide) (by decide)
  rw [h]
  rfl

/-- Claim C3 counterexample: an action-dispatch run (`sv up sshd`) that
exits successfully but writes to standard error is *not* treated as a
failure — `call_sv` succeeds and ignores the stderr text entirely. -/
theorem call_sv_ignores_stderr_on_success :
    ("warning: deprecated option" ≠ "") ∧
    call_sv "up" "sshd" ⟨some 0, "ok", "warning: deprecated option"⟩ =
      Except.ok ⟨some "ok"⟩ := by
  constructor
  · decide
  · rfl

/-- Claim C3 (amended): for a valid service name, action dispatch fails
exactly when the process exit status is unsuccessful; standard error never
decides success, it only supplies the failure message (when non-empty
after trimming). -/
theorem call_sv_failure_iff_exit (subcommand service : String) (out : SvOutput)
    (hv : validate_service_name service = true) :
    ((call_sv subcommand service out).isOk = true ↔ svSuccess out = true) ∧
    (svSuccess out = false → trimStr out.stderr ≠ "" →
      call_sv subcommand service out =
        Except.error (HelperError.SvFailure subcommand service (trimStr out.stderr))) := by
  constructor
  · rcases hsucc : svSuccess out with _ | _ <;>
      simp [call_sv, hv, hsucc, Except.isOk, Except.toBool]
  · intro hsucc herr
    simp [call_sv, hv, hsucc, herr]

/-- Witness for the amended C3: a failing `sv down` run surfaces its
trimmed stderr as the failure message. -/
theorem call_sv_failure_iff_exit_witness :
    call_sv "down" "sshd" ⟨some 1, "", " boom \n"⟩ =
      Except.error (HelperError.SvFailure "down" "sshd" "boom") := by
  have h := (call_sv_failure_iff_exit "down" "sshd" ⟨some 1, "", " boom \n"⟩
    (by decide)).2 (by decide) (by decide)
  rw [h]
  rfl

/-- Claim C10 counterexample: whitespace-only standard error is non-empty
output, yet `status` succeeds, because the source trims stderr before the
emptiness test. -/
theorem status_accepts_whitespace_stderr :
    (" \n" ≠ "") ∧
    statusRun "sshd" ⟨some 0, "run: sshd: (pid 1) 2s\n", " \n"⟩ =
      Except.ok (ServiceRuntimeState.Running 1 2) := by
  constructor
  · decide
  · rfl

/-- Claim C10 (amended): `status` validates the name first — for an
invalid name the command's behaviour is irrelevant and the result is
`InvalidServiceName`; it fails with the trimmed stderr as message whenever
that is non-empty, regardless of the exit status; with clean stderr it
fails describing the exit status whenever the trimmed stdout is empty; and
otherwise it returns exactly the parser's result on stdout. -/
theorem status_protocol :
    (∀ service out, validate_service_name service = false →
        statusRun service out =
          Except.error (ServiceError.InvalidServiceName service)) ∧
    (∀ service out, validate_service_name service = true →
        trimStr out.stderr ≠ "" →
        statusRun service out =
          Except.error (ServiceError.SvCommand service (trimStr out.stderr))) ∧
    (∀ service out, validate_service_name service = true →
        trimStr out.stderr = "" → trimStr out.stdout = "" →
        statusRun service out =
          Except.error (ServiceError.SvCommand service (noOutputMsg out))) ∧
    (∀ service out, validate_service_name service = true →
        trimStr out.stderr = "" → trimStr out.stdout ≠ "" →
        statusRun service out = Except.ok (from_sv_status out.stdout)) := by
  refine ⟨?_, ?_, ?_, ?_⟩
  · intro service out hv
    simp [statusRun, hv]
  · intro service out hv herr
    simp [statusRun, hv, herr]
  · intro service out hv herr hout
    simp [statusRun, hv, herr, hout]
  · intro service out hv herr hout
    simp [statusRun, hv, herr, hout]

/-- Witness for the amended C10: a clean status query returns the parsed
state. -/
theorem status_protocol_witness :
    statusRun "sshd" ⟨some 0, "run: sshd: (pid 1) 2s\n", ""⟩ =
      Except.ok (from_sv_status "run: sshd: (pid 1) 2s\n") :=
  status_protocol.2.2.2 "sshd" ⟨some 0, "run: sshd: (pid 1) 2s\n", ""⟩
    (by decide) (by decide) (by decide)

/-- A successful status query implies the name passed validation. -/
theorem statusRun_ok_validate {n : String} {out : SvOutput} {rs : ServiceRuntimeState}
    (h : statusRun n out = Except.ok rs) : validate_service_name n = true := by
  by_cases hv : validate_service_name n = false
  · simp [statusRun, hv] at h
  · revert hv
    cases validate_service_name n <;> simp

/-- Inversion of a successful, non-skipped `build_service_info`: every
field of the produced record is determined as the source computes it. -/
theorem build_ok_some {w : SvWorld} {n : String} {p : List String} {info : ServiceInfo}
    (h : build_service_info w n p = Except.ok (some info)) :
    startsWithDot n = false ∧ info.name = n ∧ info.definition_path = p ∧
    info.enabled = w.enabledNames.contains n ∧
    info.desired_state = (if w.enabledNames.contains n then DesiredState.AutoStart
      else DesiredState.Manual) ∧
    statusRun n (w.svOut n) = Except.ok info.runtime_state ∧
    info.description = w.descOf n := by
  by_cases hdot : startsWithDot n = true
  · simp [build_service_info, hdot] at h
  · have hdot' : startsWithDot n = false := by
      revert hdot
      cases startsWithDot n <;> simp
    rcases hst : statusRun n (w.svOut n) with err | rs
    · simp [build_service_info, hdot', hst] at h
    · rw [build_service_info, hdot'] at h
      simp only [Bool.false_eq_true, if_false, hst] at h
      have hinfo : info = ⟨n, p, w.enabledNames.contains n,
          if w.enabledNames.contains n then DesiredState.AutoStart else DesiredState.Manual,
          rs, w.descOf n⟩ := by
        injection h with h1
        injection h1 with h2
        exact h2.symm
      subst hinfo
      exact ⟨hdot', rfl, rfl, rfl, rfl, rfl, rfl⟩

/-- Membership in a successful entry-loop result: exactly the infos built
from the non-hidden directory entries. -/
theorem listGo_mem {w : SvWorld} (entries : List DirEntry) :
    ∀ {l : List ServiceInfo}, listGo w entries = Except.ok l →
    ∀ info : ServiceInfo, (info ∈ l ↔ ∃ e ∈ entries, e.isDir = true ∧
      build_service_info w e.name (joinPath w.definitionsDir e.name) =
        Except.ok (some info)) := by
  induction entries with
  | nil =>
    intro l h info
    simp only [listGo] at h
    injection h with h1
    subst h1
    simp
  | cons e rest ih =>
    intro l h info
    by_cases hdir : e.isDir = false
    · rw [listGo, if_pos hdir] at h
      rw [ih h info]
      constructor
      · rintro ⟨e', he', hP⟩
        exact ⟨e', List.mem_cons_of_mem _ he', hP⟩
      · rintro ⟨e', he', hd, hb⟩
        rcases List.mem_cons.mp he' with rfl | hm
        · rw [hdir] at hd
          cases hd
        · exact ⟨e', hm, hd, hb⟩
    · have hdir' : e.isDir = true := by
        revert hdir
        cases e.isDir <;> simp
      rcases hb : build_service_info w e.name (joinPath w.definitionsDir e.name) with
        err | oinfo
      · rw [listGo, if_neg hdir, hb] at h
        cases h
      · rcases oinfo with _ | i
        · rw [listGo, if_neg hdir, hb] at h
          rw [ih h info]
          constructor
          · rintro ⟨e', he', hP⟩
            exact ⟨e', List.mem_cons_of_mem _ he', hP⟩
          · rintro ⟨e', he', hd, hbb⟩
            rcases List.mem_cons.mp he' with rfl | hm
            · rw [hb] at hbb
              cases hbb
            · exact ⟨e', hm, hd, hbb⟩
        · rw [listGo, if_neg hdir, hb] at h
          rcases hrest : listGo w rest with err2 | l2
          · rw [hrest] at h
            cases h
          · rw [hrest] at h
            have hl : l = i :: l2 := by
              injection h with h1
              exact h1.symm
            subst hl
            constructor
            · intro hx
              rcases List.mem_cons.mp hx with rfl | hx2
              · exact ⟨e, List.mem_cons_self e rest, hdir', hb⟩
              · obtain ⟨e', he', hP⟩ := (ih hrest info).mp hx2
                exact ⟨e', List.mem_cons_of_mem _ he', hP⟩
            · rintro ⟨e', he', hd, hbb⟩
              rcases List.mem_cons.mp he' with rfl | hm
              · rw [hb] at hbb
                injection hbb with h1
                injection h1 with h2
                subst h2
                exact List.mem_cons_self _ _
              · exact List.mem_cons_of_mem _
                  ((ih hrest info).mpr ⟨e', hm, hd, hbb⟩)

/-- The entry loop propagates the first build error among the directory
entries. -/
theorem listGo_first_error {w : SvWorld} (pre : List DirEntry) :
    ∀ (e : DirEntry) (post : List DirEntry) (err : ServiceError),
      (∀ e' ∈ pre, e'.isDir = true →
        (build_service_info w e'.name (joinPath w.definitionsDir e'.name)).isOk = true) →
      e.isDir = true →
      build_service_info w e.name (joinPath w.definitionsDir e.name) =
        Except.error err →
      listGo w (pre ++ e :: post) = Except.error err := by
  induction pre with
  | nil =>
    intro e post err hpre hdir hb
    rw [List.nil_append, listGo, if_neg (by simp [hdir]), hb]
  | cons p pre' ih =>
    intro e post err hpre hdir hb
    rw [List.cons_append]
    by_cases hpd : p.isDir = false
    · rw [listGo, if_pos hpd]
      exact ih e post err (fun e' he' => hpre e' (List.mem_cons_of_mem _ he')) hdir hb
    · have hpok := hpre p (List.mem_cons_self p pre')
        (by revert hpd; cases p.isDir <;> simp)
      rcases hbp : build_service_info w p.name (joinPath w.definitionsDir p.name) with
        err2 | o2
      · rw [hbp] at hpok
        simp [Except.isOk, Except.toBool] at hpok
      · rw [listGo, if_neg hpd, hbp]
        rcases o2 with _ | i2
        · exact ih e post err (fun e' he' => hpre e' (List.mem_cons_of_mem _ he')) hdir hb
        · rw [ih e post err (fun e' he' => hpre e' (List.mem_cons_of_mem _ he')) hdir hb]

/-- A successful entry loop had a successful build for every directory
entry. -/
theorem listGo_ok_all {w : SvWorld} (entries : List DirEntry) :
    ∀ {l : List ServiceInfo}, listGo w entries = Except.ok l →
    ∀ e ∈ entries, e.isDir = true →
      (build_service_info w e.name (joinPath w.definitionsDir e.name)).isOk = true := by
  induction entries with
  | nil =>
    intro l _ e he
    simp at he
  | cons p rest ih =>
    intro l h e he hdir
    by_cases hpd : p.isDir = false
    · rw [listGo, if_pos hpd] at h
      rcases List.mem_cons.mp he with rfl | hm
      · rw [hdir] at hpd
        cases hpd
      · exact ih h e hm hdir
    · rcases hbp : build_service_info w p.name (joinPath w.definitionsDir p.name) with
        err2 | o2
      · rw [listGo, if_neg hpd, hbp] at h
        cases h
      · rcases List.mem_cons.mp he with rfl | hm
        · rw [hbp]
          rfl
        · rw [listGo, if_neg hpd, hbp] at h
          rcases o2 with _ | i2
          · exact ih h e hm hdir
          · rcases hrest : listGo w rest with er | l2
            · rw [hrest] at h
              cases h
            · exact ih hrest e hm hdir

/-- Claim C8: a successful `list()` is sorted by name in ascending order,
contains exactly the infos built from the non-hidden directory entries of
the definitions root, and stamps `enabled`/`desired_state` solely from the
existence of `enabled_root/name`; every listed name is validated (hence
ASCII, where code-point order is byte order).  On the spec's concrete
example — definitions root `{a, b, .hidden}`, enabled root `{b}` — the
result is exactly `a` (manual) before `b` (auto-start). -/
theorem list_services_contract :
    (∀ w entries l, w.readDir = Except.ok entries →
        list_services w = Except.ok l →
        List.Sorted nameLe l ∧
        (∀ info : ServiceInfo, info ∈ l ↔ ∃ e ∈ entries, e.isDir = true ∧
          build_service_info w e.name (joinPath w.definitionsDir e.name) =
            Except.ok (some info)) ∧
        (∀ info ∈ l, startsWithDot info.name = false ∧
          validate_service_name info.name = true ∧
          info.enabled = w.enabledNames.contains info.name ∧
          info.desired_state = (if w.enabledNames.contains info.name
            then DesiredState.AutoStart else DesiredState.Manual))) ∧
    list_services exListWorld = Except.ok [exInfoA, exInfoB] := by
  constructor
  · intro w entries l hread hlist
    simp only [list_services, hread] at hlist
    rcases hgo : listGo w entries with er | l0
    · simp only [hgo] at hlist
      cases hlist
    · simp only [hgo] at hlist
      have hl : l = List.insertionSort nameLe l0 := by
        injection hlist with h1
        exact h1.symm
      subst hl
      refine ⟨List.sorted_insertionSort nameLe l0, ?_, ?_⟩
      · intro info
        rw [(List.perm_insertionSort nameLe l0).mem_iff]
        exact listGo_mem entries hgo info
      · intro info hinfo
        have hmem := (List.perm_insertionSort nameLe l0).mem_iff.mp hinfo
        obtain ⟨e, _, _, hb⟩ := (listGo_mem entries hgo info).mp hmem
        obtain ⟨hdot, hname, _, hen, hdes, hst, _⟩ := build_ok_some hb
        rw [hname]
        exact ⟨hdot, statusRun_ok_validate hst, hen, hdes⟩
  · rfl

/-- Witness for C8: the concrete enumeration's output is sorted. -/
theorem list_services_contract_witness :
    List.Sorted nameLe [exInfoA, exInfoB] :=
  (list_services_contract.1 exListWorld
    [⟨"b", true⟩, ⟨".hidden", true⟩, ⟨"a", true⟩, ⟨"notdir", false⟩]
    [exInfoA, exInfoB] rfl list_services_contract.2).1

/-- Claim C9: enumeration is all-or-nothing.  A build error is exactly a
status-query error for a non-hidden name; an unreadable definitions root
fails the whole call with that error; the first failing status query among
the directory entries fails the whole call with that error; and a
successful call implies every directory entry's build succeeded — no
best-effort subset exists. -/
theorem list_services_all_or_nothing :
    (∀ w n p err, build_service_info w n p = Except.error err ↔
        (startsWithDot n = false ∧ statusRun n (w.svOut n) = Except.error err)) ∧
    (∀ w e, w.readDir = Except.error e → list_services w = Except.error e) ∧
    (∀ w pre e post err entries, w.readDir = Except.ok entries →
        entries = pre ++ e :: post → e.isDir = true →
        (∀ e' ∈ pre, e'.isDir = true →
          (build_service_info w e'.name (joinPath w.definitionsDir e'.name)).isOk
            = true) →
        build_service_info w e.name (joinPath w.definitionsDir e.name) =
          Except.error err →
        list_services w = Except.error err) ∧
    (∀ w entries l, w.readDir = Except.ok entries →
        list_services w = Except.ok l →
        ∀ e ∈ entries, e.isDir = true →
          (build_service_info w e.name (joinPath w.definitionsDir e.name)).isOk
            = true) := by
  refine ⟨?_, ?_, ?_, ?_⟩
  · intro w n p err
    by_cases hdot : startsWithDot n = true
    · simp [build_service_info, hdot]
    · have hdot' : startsWithDot n = false := by
        revert hdot
        cases startsWithDot n <;> simp
      rcases hst : statusRun n (w.svOut n) with e2 | rs
      · simp [build_service_info, hdot', hst]
      · simp [build_service_info, hdot', hst]
  · intro w e h
    rw [list_services, h]
  · intro w pre e post err entries hread hsplit hdir hpre hb
    subst hsplit
    simp only [list_services, hread]
    rw [listGo_first_error pre e post err hpre hdir hb]
  · intro w entries l hread hlist
    simp only [list_services, hread] at hlist
    rcases hgo : listGo w entries with er | l0
    · simp only [hgo] at hlist
      cases hlist
    · exact listGo_ok_all entries hgo

/-- Witness for C9: an unreadable definitions root fails the whole
enumeration with that very error. -/
theorem list_services_all_or_nothing_witness :
    list_services brokenReadWorld =
      Except.error (ServiceError.IoErr ["etc", "sv"]) :=
  list_services_all_or_nothing.2.1 brokenReadWorld
    (ServiceError.IoErr ["etc", "sv"]) rfl
